import Mathlib

/-!
Verification development for the interactive SQL shell of the bunny CLI
(source file: src/commands/db/shell.ts).  The definitions below are a shallow
embedding of the shell's pure core: the statement splitter, the masking
engine, the JSON result renderer, the dot-command dispatcher and the history
store.  Strings are modelled as Lean `String` / `List Char`; the JavaScript
runtime's UTF-16 code units coincide with code points on the inputs treated
here.
-/

namespace BunnyShell

/-- The single-quote character (code point 39), written numerically. -/
def qchar : Char := Char.ofNat 39

/-- A one-character string holding a single quote. -/
def qs : String := String.mk [qchar]

/-- Whitespace characters removed by JavaScript `String.prototype.trim` and
matched by `\s`, restricted to the ASCII range (the full JS set also has
Unicode spaces, which do not occur in the shell's inputs of interest). -/
def isWsChar (c : Char) : Bool :=
  c = ' ' || c = '\t' || c = '\n' || c = '\r' || c = Char.ofNat 11 || c = Char.ofNat 12

/-- JavaScript `trim` on a character list: drop whitespace from both ends. -/
def jsTrimL (cs : List Char) : List Char :=
  ((cs.dropWhile isWsChar).reverse.dropWhile isWsChar).reverse

/-- JavaScript `trim` on strings. -/
def jsTrim (s : String) : String :=
  String.mk (jsTrimL s.data)

/-- Emit the trimmed buffer as a statement if it is non-empty
(shell.ts: `const trimmed = current.trim(); if (trimmed.length > 0) ...`). -/
def emitTrim (cur : List Char) : List (List Char) :=
  let t := jsTrimL cur
  if t = [] then [] else [t]

/-- The character scan of `splitStatements` (shell.ts lines 244-291).
The source walks an index `i` with one boolean state `inString`; the jump
`i = nl` performed for a `--` line comment is modelled by the extra
`inComment` flag that discards characters up to the next newline.  The
escaped-quote lookahead `sql[i + 1]` is the nested match on `rest`. -/
def splitRun : List Char → Bool → Bool → List Char → List (List Char)
  | [], _, _, cur => emitTrim cur
  | c :: rest, true, inString, cur =>
    -- inside a `--` comment: discard up to the newline, keep the newline
    if c = '\n' then splitRun rest false inString (cur ++ ['\n'])
    else splitRun rest true inString cur
  | c :: rest, false, inString, cur =>
    if inString = false ∧ c = '-' ∧ rest.head? = some '-' then
      splitRun rest true inString cur
    else if c = qchar then
      if inString then
        match rest with
        | r1 :: rr =>
          if r1 = qchar then
            -- escaped quote: copy both characters, stay inside the string
            splitRun rr false true (cur ++ [qchar, qchar])
          else splitRun (r1 :: rr) false false (cur ++ [qchar])
        | [] => splitRun [] false false (cur ++ [qchar])
      else splitRun rest false true (cur ++ [qchar])
    else if c = ';' ∧ inString = false then
      emitTrim cur ++ splitRun rest false false []
    else splitRun rest false inString (cur ++ [c])

/-- `splitStatements` from shell.ts: split raw SQL text into trimmed,
non-empty statements. -/
def splitStatements (sql : String) : List String :=
  (splitRun sql.data false false []).map String.mk

/-- Split a character list at every occurrence of `sep`, keeping empty
segments, exactly like JavaScript `String.prototype.split` with a
one-character separator. -/
def splitOnCharL (sep : Char) : List Char → List (List Char)
  | [] => [[]]
  | c :: rest =>
    if c = sep then [] :: splitOnCharL sep rest
    else
      match splitOnCharL sep rest with
      | [] => [[c]]
      | s :: ss => (c :: s) :: ss

/-- The naive reading of the spec: split the text on every `;`, trim each
segment, and drop the empty segments. -/
def naiveSplit (s : String) : List String :=
  (((splitOnCharL ';' s.data).map jsTrimL).filter (fun l => l ≠ [])).map String.mk

/-- `true` when the text contains the two-character sequence `--` somewhere. -/
def hasDashDash : List Char → Bool
  | c1 :: c2 :: rest => (c1 = '-' && c2 = '-') || hasDashDash (c2 :: rest)
  | _ => false

/-! ## Masking engine (shell.ts lines 62-108) -/

def MASK_RAW : String := "********"

def SENSITIVE_SUBSTRINGS : List String :=
  ["password", "passwd", "secret", "_hash", "_token",
   "auth_token", "api_key", "apikey", "access_key",
   "private_key", "credit_card", "creditcard", "ssn"]

def SENSITIVE_PREFIXES : List String := ["encrypted_", "hashed_"]

def EMAIL_SUBSTRINGS : List String := ["email", "e_mail"]

/-- JavaScript `String.prototype.startsWith` on character lists. -/
def startsWithL : List Char → List Char → Bool
  | _, [] => true
  | [], _ :: _ => false
  | c :: cs, d :: ds => c = d && startsWithL cs ds

/-- JavaScript `String.prototype.includes` on character lists. -/
def containsSeq : List Char → List Char → Bool
  | hay, needle =>
    match hay with
    | [] => needle.isEmpty
    | _ :: rest => startsWithL hay needle || containsSeq rest needle

inductive MaskType where
  | none
  | full
  | email
deriving DecidableEq, Repr

/-- JavaScript `String.prototype.toLowerCase`, for the ASCII alphabet the
shell's column names and dot-commands use. -/
def jsToLower (s : String) : String :=
  String.mk (s.data.map Char.toLower)

/-- `columnMaskType` from shell.ts: classify a column name, first match
wins, case-insensitively. -/
def columnMaskType (name : String) : MaskType :=
  let lower := jsToLower name
  if SENSITIVE_PREFIXES.any (fun p => startsWithL lower.data p.data) then .full
  else if SENSITIVE_SUBSTRINGS.any (fun s => containsSeq lower.data s.data) then .full
  else if EMAIL_SUBSTRINGS.any (fun s => containsSeq lower.data s.data) then .email
  else .none

/-- Index of the first occurrence of `c`, or the length of the list when `c`
does not occur (JavaScript `indexOf` returns `-1` then; callers compare the
result with the length instead). -/
def idxOfChar (c : Char) : List Char → Nat
  | [] => 0
  | d :: rest => if d = c then 0 else idxOfChar c rest + 1

/-- The bullet character `•` used as masking filler. -/
def bullet : Char := Char.ofNat 0x2022

def fillerL : List Char := [bullet, bullet, bullet, bullet]

/-- `maskEmail` from shell.ts: keep the first and last character of the
local part and the whole domain; values whose first `@` is not at index
`≥ 1` fall back to the full mask literal. -/
def maskEmail (value : String) : String :=
  let cs := value.data
  let a := idxOfChar '@' cs
  if 1 ≤ a ∧ a < cs.length then
    let locl := cs.take a
    let domain := cs.drop a
    if locl.length = 1 then String.mk (locl.take 1 ++ fillerL ++ domain)
    else String.mk (locl.take 1 ++ fillerL ++ locl.drop (locl.length - 1) ++ domain)
  else MASK_RAW

/-- The value domain of a libSQL result cell, as far as the shell's pure
core observes it (binary blobs and floats do not appear in the verified
claims and behave like opaque strings under `String(...)`). -/
inductive Value where
  | null
  | str (s : String)
  | int (n : Int)
  | bool (b : Bool)
deriving DecidableEq, Repr

/-- JavaScript `String(val)` for the modelled value domain. -/
def valToString : Value → String
  | .null => "null"
  | .str s => s
  | .int n => toString n
  | .bool b => if b then "true" else "false"

/-- `formatValueRaw` from shell.ts: `NULL` for null, `String(val)` otherwise. -/
def formatValueRaw (val : Value) : String :=
  if val = .null then "NULL" else valToString val

/-- `applyMaskRaw` from `printResultSet` (shell.ts lines 114-119). -/
def applyMaskRaw (val : Value) (mask : MaskType) : String :=
  if val = .null then formatValueRaw val
  else
    match mask with
    | .full => MASK_RAW
    | .email => maskEmail (valToString val)
    | .none => formatValueRaw val

/-! ## Result sets and the JSON renderer (shell.ts lines 111-143) -/

/-- The tabular result consumed by the renderer. -/
structure ResultSet where
  columns : List String
  rows : List (List Value)
  rowsAffected : Nat
deriving DecidableEq, Repr

/-- The per-column mask resolution at the top of `printResultSet`:
`result.columns.map((c) => masked ? columnMaskType(c) : "none")`. -/
def columnMasks (columns : List String) (masked : Bool) : List MaskType :=
  columns.map (fun c => if masked then columnMaskType c else .none)

/-- The value stored under a column key in json mode (shell.ts lines
133-137): null and unmasked cells keep the source value, masked cells
become the plain masked string. -/
def jsonCellValue (val : Value) (mask : MaskType) : Value :=
  if val = .null ∨ mask = .none then val
  else .str (applyMaskRaw val mask)

/-- The json-mode value computed for column `i` of a row; it reads only the
column's resolved mask and the row's cell at the same index. -/
def jsonCell (columns : List String) (row : List Value) (masked : Bool) (i : Nat) : Value :=
  jsonCellValue (row.getD i .null) ((columnMasks columns masked).getD i .none)

/-- JavaScript object assignment `obj[k] = v`: overwrite an existing key in
place, otherwise append the new key. -/
def jsSet (obj : List (String × Value)) (k : String) (v : Value) : List (String × Value) :=
  if obj.any (fun p => p.1 == k) then
    obj.map (fun p => if p.1 == k then (k, v) else p)
  else obj ++ [(k, v)]

/-- Key lookup on the object produced for one row, as a JSON consumer that
parses the emitted text back would perform it. -/
def jsGet (obj : List (String × Value)) (k : String) : Option Value :=
  (obj.find? (fun p => p.1 == k)).map (fun p => p.2)

/-- The object built for one row in json mode (shell.ts lines 129-139):
`for (let i = 0; i < result.columns.length; i++) obj[columns[i]] = ...`. -/
def renderJsonRow (columns : List String) (row : List Value) (masked : Bool) :
    List (String × Value) :=
  (List.range columns.length).foldl
    (fun obj i => jsSet obj (columns.getD i "") (jsonCell columns row masked i)) []

/-- The json rendering of a whole result set: the sequence of row objects
serialized by `JSON.stringify` (modelled at the JSON value level; `stringify`
followed by `parse` is the identity on these finite objects). -/
def renderJson (result : ResultSet) (masked : Bool) : List (List (String × Value)) :=
  result.rows.map (fun row => renderJsonRow result.columns row masked)

/-! ## History store (shell.ts lines 30-53).  The file system is modelled as
the optional contents of the single history file. -/

def HISTORY_MAX : Nat := 1000

/-- Join lines with a newline separator (JavaScript `Array.prototype.join`). -/
def joinNl : List String → String
  | [] => ""
  | [l] => l
  | l :: ls => l ++ "\n" ++ joinNl ls

/-- `loadHistory`: an absent file is empty history; otherwise split the
contents on newlines and drop empty lines. -/
def loadHistory (file : Option String) : List String :=
  match file with
  | Option.none => []
  | some content =>
    (((splitOnCharL '\n' content.data).map String.mk).filter (fun l => l.length > 0))

/-- `saveHistory`: overwrite the file with the last `HISTORY_MAX` lines
(JavaScript `lines.slice(-1000)`) joined by newlines, plus a final newline. -/
def saveHistory (lines : List String) (_file : Option String) : Option String :=
  some (joinNl (lines.drop (lines.length - HISTORY_MAX)) ++ "\n")

/-! ## Dot-command dispatcher (shell.ts lines 337-568).  Side effects are
recorded as an ordered event trace: queries sent through the database
handle, confirmation prompts, error messages, file-execution delegations and
history writes. -/

inductive PrintMode where
  | default
  | table
  | json
  | csv
  | markdown
deriving DecidableEq, Repr

def PRINT_MODES : List PrintMode :=
  [.default, .table, .json, .csv, .markdown]

def printModeOfString (s : String) : Option PrintMode :=
  if s = "default" then some .default
  else if s = "table" then some .table
  else if s = "json" then some .json
  else if s = "csv" then some .csv
  else if s = "markdown" then some .markdown
  else Option.none

structure ShellState where
  mode : PrintMode
  masked : Bool
  timing : Bool
deriving DecidableEq, Repr

inductive DotOutcome where
  | quit
  | handled
  | unknown
deriving DecidableEq, Repr

inductive ShellEv where
  | query (sql : String)
  | confirmAsk
  | errMsg (msg : String)
  | fileRead (path : String)
  | historySaved (lines : List String)
deriving DecidableEq, Repr

/-- `askConfirm`: the answer counts as a yes exactly when it is `y` after
trimming and lowercasing. -/
def confirmYes (answer : String) : Bool :=
  jsToLower (jsTrim answer) == "y"

/-- `tableName.replace(/'/g, "''")`. -/
def sqlQuoteEsc (s : String) : String :=
  String.mk (s.data.foldr (fun c acc => if c = qchar then qchar :: qchar :: acc else c :: acc) [])

/-- `tableName.replace(/"/g, '""')`. -/
def sqlDQuoteEsc (s : String) : String :=
  String.mk (s.data.foldr (fun c acc => if c = '"' then '"' :: '"' :: acc else c :: acc) [])

def tablesQuery : String :=
  "SELECT name FROM sqlite_master WHERE type=" ++ qs ++ "table" ++ qs ++ " ORDER BY name"

def schemaAllQuery : String :=
  "SELECT sql FROM sqlite_master WHERE sql IS NOT NULL ORDER BY name"

def schemaTableQuery (t : String) : String :=
  "SELECT sql FROM sqlite_master WHERE name=" ++ qs ++ sqlQuoteEsc t ++ qs

def indexesAllQuery : String :=
  "SELECT name, tbl_name as " ++ qs ++ "table" ++ qs ++
    " FROM sqlite_master WHERE type=" ++ qs ++ "index" ++ qs ++ " ORDER BY tbl_name, name"

def indexesTableQuery (t : String) : String :=
  "SELECT name, tbl_name as " ++ qs ++ "table" ++ qs ++
    " FROM sqlite_master WHERE type=" ++ qs ++ "index" ++ qs ++
    " AND tbl_name=" ++ qs ++ sqlQuoteEsc t ++ qs ++ " ORDER BY name"

def describeQuery (t : String) : String :=
  "SELECT name, type, CASE WHEN \"notnull\" THEN " ++ qs ++ "NOT NULL" ++ qs ++ " ELSE " ++
    qs ++ qs ++ " END as nullable, dflt_value as default_value, CASE WHEN pk THEN " ++ qs ++
    "YES" ++ qs ++ " ELSE " ++ qs ++ qs ++ " END as primary_key FROM pragma_table_info(" ++
    qs ++ sqlQuoteEsc t ++ qs ++ ")"

def countQuery (t : String) : String :=
  "SELECT COUNT(*) as count FROM \"" ++ sqlDQuoteEsc t ++ "\""

def dumpSchemaQuery (t : String) : String :=
  "SELECT sql FROM sqlite_master WHERE name=" ++ qs ++ sqlQuoteEsc t ++ qs

def dumpDataQuery (t : String) : String :=
  "SELECT * FROM \"" ++ sqlDQuoteEsc t ++ "\""

def sizeSchemaQuery (t : String) : String :=
  "SELECT sql FROM sqlite_master WHERE name=" ++ qs ++ sqlQuoteEsc t ++ qs ++
    " AND type=" ++ qs ++ "table" ++ qs

def sizeCountQuery (t : String) : String :=
  "SELECT COUNT(*) as row_count FROM \"" ++ sqlDQuoteEsc t ++ "\""

def sizeColsQuery (t : String) : String :=
  "SELECT COUNT(*) as c FROM pragma_table_info(" ++ qs ++ sqlQuoteEsc t ++ qs ++ ")"

def sizeIdxQuery (t : String) : String :=
  "SELECT COUNT(*) as c FROM sqlite_master WHERE type=" ++ qs ++ "index" ++ qs ++
    " AND tbl_name=" ++ qs ++ sqlQuoteEsc t ++ qs

/-- `rows[0]?.[0]`: the first cell of the first row, when both exist. -/
def firstCell (rs : ResultSet) : Option Value :=
  rs.rows.head?.bind List.head?

/-- JavaScript truthiness test `!val` applied to an optional cell value. -/
def jsFalsy : Option Value → Bool
  | Option.none => true
  | some .null => true
  | some (.str s) => s = ""
  | some (.int n) => n = 0
  | some (.bool b) => b = false

/-- Whitespace-run tokenizer: accumulate the current token in reverse and
emit it at each whitespace boundary. -/
def wsTokensAux : List Char → List Char → List (List Char)
  | [], cur => if cur = [] then [] else [cur.reverse]
  | c :: rest, cur =>
    if isWsChar c then
      if cur = [] then wsTokensAux rest []
      else cur.reverse :: wsTokensAux rest []
    else wsTokensAux rest (c :: cur)

/-- `command.trim().split(/\s+/)`: JavaScript `split` on a regular
expression yields `[""]` for the empty string, and the whitespace-run
tokens otherwise (the input being trimmed, no empty token arises). -/
def splitWs (s : String) : List String :=
  let cs := jsTrimL s.data
  if cs = [] then [""] else (wsTokensAux cs []).map String.mk

/-- The dump loop body for one table: fetch the schema row, then scan the
table data (the printed `INSERT` lines are output, not queries). -/
def dumpTableEvs (t : String) : List ShellEv :=
  [.query (dumpSchemaQuery t), .query (dumpDataQuery t)]

/-- `executeDotCommand` from shell.ts: tokenize the line, select the handler
by the lowercased first token, and run it.  `db` is the pure model of the
database handle (the response to each query text), `answer` the reply the
user would give to a confirmation prompt. -/
def executeDotCommand (command : String) (db : String → ResultSet)
    (state : ShellState) (answer : String) :
    DotOutcome × ShellState × List ShellEv :=
  let parts := splitWs command
  let cmd := jsToLower (parts.headD "")
  if cmd = ".quit" ∨ cmd = ".exit" then (.quit, state, [])
  else if cmd = ".tables" then (.handled, state, [.query tablesQuery])
  else if cmd = ".schema" then
    match parts.get? 1 with
    | some t => (.handled, state, [.query (schemaTableQuery t)])
    | Option.none => (.handled, state, [.query schemaAllQuery])
  else if cmd = ".indexes" then
    match parts.get? 1 with
    | some t => (.handled, state, [.query (indexesTableQuery t)])
    | Option.none => (.handled, state, [.query indexesAllQuery])
  else if cmd = ".describe" then
    match parts.get? 1 with
    | Option.none => (.handled, state, [.errMsg "Usage: .describe TABLE"])
    | some t =>
      if (db (describeQuery t)).rows.length = 0 then
        (.handled, state, [.query (describeQuery t), .errMsg ("Table not found: " ++ t)])
      else (.handled, state, [.query (describeQuery t)])
  else if cmd = ".count" then
    match parts.get? 1 with
    | Option.none => (.handled, state, [.errMsg "Usage: .count TABLE"])
    | some t =>
      if confirmYes answer = false then (.handled, state, [.confirmAsk])
      else (.handled, state, [.confirmAsk, .query (countQuery t)])
  else if cmd = ".dump" then
    if confirmYes answer = false then (.handled, state, [.confirmAsk])
    else
      match parts.get? 1 with
      | some t => (.handled, state, .confirmAsk :: dumpTableEvs t)
      | Option.none =>
        let tbls := (db tablesQuery).rows.map (fun r => valToString (r.headD .null))
        (.handled, state, .confirmAsk :: .query tablesQuery :: tbls.flatMap dumpTableEvs)
  else if cmd = ".mode" then
    match (parts.get? 1).bind (fun a => printModeOfString (jsToLower a)) with
    | Option.none => (.handled, state, [])
    | some m => (.handled, { state with mode := m }, [])
  else if cmd = ".mask" then (.handled, { state with masked := true }, [])
  else if cmd = ".unmask" then (.handled, { state with masked := false }, [])
  else if cmd = ".timing" then (.handled, { state with timing := !state.timing }, [])
  else if cmd = ".size" then
    match parts.get? 1 with
    | Option.none => (.handled, state, [.errMsg "Usage: .size TABLE"])
    | some t =>
      if jsFalsy (firstCell (db (sizeSchemaQuery t))) then
        (.handled, state, [.query (sizeSchemaQuery t), .errMsg ("Table not found: " ++ t)])
      else if confirmYes answer = false then
        (.handled, state, [.query (sizeSchemaQuery t), .confirmAsk])
      else
        (.handled, state,
          [.query (sizeSchemaQuery t), .confirmAsk, .query (sizeCountQuery t),
           .query (sizeColsQuery t), .query (sizeIdxQuery t)])
  else if cmd = ".read" then
    match parts.get? 1 with
    | Option.none => (.handled, state, [.errMsg "Usage: .read FILE"])
    | some p => (.handled, state, [.fileRead p])
  else if cmd = ".clear-history" then (.handled, state, [.historySaved []])
  else if cmd = ".help" then (.handled, state, [])
  else (.unknown, state, [])

/-! ## Lemmas about the statement splitter -/

theorem splitOnCharL_ne_nil (sep : Char) (l : List Char) : splitOnCharL sep l ≠ [] := by
  induction l with
  | nil => simp [splitOnCharL]
  | cons c rest ih =>
    simp only [splitOnCharL]
    split
    · simp
    · cases h : splitOnCharL sep rest with
      | nil => exact absurd h ih
      | cons s ss => simp [h]

/-- Prepend already-buffered text to the first naive segment. -/
def prependSeg (cur : List Char) : List (List Char) → List (List Char)
  | [] => [cur]
  | s :: ss => (cur ++ s) :: ss

theorem hasDashDash_cons {c : Char} {rest : List Char}
    (h : hasDashDash (c :: rest) = false) :
    hasDashDash rest = false ∧ ¬(c = '-' ∧ rest.head? = some '-') := by
  cases rest with
  | nil => simp [hasDashDash]
  | cons c2 rest' =>
    simp only [hasDashDash, Bool.or_eq_false_iff, Bool.and_eq_false_iff] at h
    refine ⟨h.2, ?_⟩
    rintro ⟨rfl, hh⟩
    simp only [List.head?_cons, Option.some.injEq] at hh
    subst hh
    simp at h

theorem splitRun_no_quote_no_comment (cs : List Char) :
    ∀ cur, qchar ∉ cs → hasDashDash cs = false →
      splitRun cs false false cur =
        ((prependSeg cur (splitOnCharL ';' cs)).map jsTrimL).filter (fun l => l ≠ []) := by
  induction cs with
  | nil =>
    intro cur _ _
    simp only [splitRun, splitOnCharL, prependSeg, List.append_nil, List.map_cons, List.map_nil,
      List.filter]
    unfold emitTrim
    by_cases h : jsTrimL cur = [] <;> simp [h]
  | cons c rest ih =>
    intro cur hq hd
    obtain ⟨hdrest, hdc⟩ := hasDashDash_cons hd
    have hcq : c ≠ qchar := fun h => hq (h ▸ List.mem_cons_self c rest)
    have hqrest : qchar ∉ rest := fun h => hq (List.mem_cons_of_mem c h)
    by_cases hsemi : c = ';'
    · subst hsemi
      have lhs : splitRun (';' :: rest) false false cur =
          emitTrim cur ++ splitRun rest false false [] := by
        rw [splitRun.eq_def]
        simp only []
        rw [if_neg (by rintro ⟨_, h, _⟩; exact absurd h (by decide)),
          if_neg (show ¬((';' : Char) = qchar) by decide), if_pos (by simp)]
      rw [lhs, ih [] hqrest hdrest]
      simp only [splitOnCharL, if_pos rfl, prependSeg, List.append_nil, List.map_cons,
        List.filter_cons]
      cases hsplit : splitOnCharL ';' rest with
      | nil => exact absurd hsplit (splitOnCharL_ne_nil ';' rest)
      | cons s ss =>
        simp only [prependSeg, List.nil_append]
        unfold emitTrim
        by_cases h : jsTrimL cur = [] <;> simp [h]
    · have lhs : splitRun (c :: rest) false false cur =
          splitRun rest false false (cur ++ [c]) := by
        rw [splitRun.eq_def]
        simp only []
        rw [if_neg (by rintro ⟨_, h1, h2⟩; exact hdc ⟨h1, h2⟩), if_neg hcq,
          if_neg (by rintro ⟨h, _⟩; exact hsemi h)]
      rw [lhs, ih (cur ++ [c]) hqrest hdrest]
      simp only [splitOnCharL, if_neg hsemi]
      cases hsplit : splitOnCharL ';' rest with
      | nil => exact absurd hsplit (splitOnCharL_ne_nil ';' rest)
      | cons s ss => simp [prependSeg, List.append_assoc]

theorem prependSeg_nil_of_ne_nil {segs : List (List Char)} (h : segs ≠ []) :
    prependSeg [] segs = segs := by
  cases segs with
  | nil => exact absurd rfl h
  | cons s ss => simp [prependSeg]

/-- C1 counterexample input: a line comment whose content holds a `;`. -/
def c1Input : String := "-- a;\nSELECT 1;"

/-- C1 -- the claim as frozen is false: on text with no string literals but
with a `--` line comment, the splitter discards the comment content while
the naive split keeps it. -/
theorem C1_counterexample :
    splitStatements c1Input ≠ naiveSplit c1Input ∧
      splitStatements c1Input = ["SELECT 1"] ∧
      naiveSplit c1Input = ["-- a", "SELECT 1"] := by
  refine ⟨?_, by decide, by decide⟩
  decide

/-- C1 (amended): for SQL text containing no single-quote characters and no
occurrence of the two-character sequence `--`, `splitStatements` equals the
naive split-on-`;` with each segment trimmed and empty segments removed. -/
theorem C1_split_eq_naive (s : String)
    (hq : qchar ∉ s.data) (hd : hasDashDash s.data = false) :
    splitStatements s = naiveSplit s := by
  unfold splitStatements naiveSplit
  rw [splitRun_no_quote_no_comment s.data [] hq hd,
    prependSeg_nil_of_ne_nil (splitOnCharL_ne_nil ';' s.data)]

/-- C1 witness: the amended equivalence evaluated on concrete comment-free,
quote-free text. -/
theorem C1_witness :
    (qchar ∉ "SELECT 1; SELECT 2 ;; X".data ∧
      hasDashDash "SELECT 1; SELECT 2 ;; X".data = false) ∧
      splitStatements "SELECT 1; SELECT 2 ;; X" = naiveSplit "SELECT 1; SELECT 2 ;; X" :=
  ⟨⟨by decide, by decide⟩, C1_split_eq_naive _ (by decide) (by decide)⟩

/-- C4: a `;` inside a single-quoted string is ordinary content (it is
appended to the buffer, never a boundary), the escaped-quote sequence `''`
inside a string is copied through literally without ending the string, and
the two concrete splits from the spec hold. -/
theorem C4_semicolon_in_string_and_escaped_quote :
    (∀ (rest cur : List Char),
      splitRun (';' :: rest) false true cur = splitRun rest false true (cur ++ [';'])) ∧
    (∀ (rest cur : List Char),
      splitRun (qchar :: qchar :: rest) false true cur
        = splitRun rest false true (cur ++ [qchar, qchar])) ∧
    splitStatements ("INSERT INTO t VALUES (" ++ qs ++ "a;b" ++ qs ++ ");")
      = ["INSERT INTO t VALUES (" ++ qs ++ "a;b" ++ qs ++ ")"] ∧
    splitStatements
        ("INSERT INTO t VALUES (" ++ qs ++ "O" ++ qs ++ qs ++ "Brien; Jr." ++ qs ++ ");")
      = ["INSERT INTO t VALUES (" ++ qs ++ "O" ++ qs ++ qs ++ "Brien; Jr." ++ qs ++ ")"] := by
  refine ⟨?_, ?_, by decide, by decide⟩
  · intro rest cur
    rw [splitRun.eq_def]
    simp only []
    rw [if_neg (by rintro ⟨h, _, _⟩; exact absurd h (by decide)),
      if_neg (show ¬((';' : Char) = qchar) by decide),
      if_neg (by rintro ⟨_, h⟩; exact absurd h (by decide))]
  · intro rest cur
    rw [splitRun.eq_def]
    simp only []
    rw [if_neg (by rintro ⟨_, h, _⟩; exact absurd h (by decide))]
    simp

theorem splitRun_comment_skip (body : List Char) :
    ∀ (rest cur : List Char) (inString : Bool), '\n' ∉ body →
      splitRun (body ++ '\n' :: rest) true inString cur
        = splitRun rest false inString (cur ++ ['\n']) := by
  induction body with
  | nil =>
    intro rest cur inString _
    rw [List.nil_append, splitRun.eq_def]
    simp
  | cons b bs ih =>
    intro rest cur inString h
    have hb : ¬(b = '\n') := fun hb => h (by simp [hb])
    rw [List.cons_append, splitRun.eq_def]
    simp only []
    rw [if_neg hb]
    exact ih rest cur inString (fun hm => h (List.mem_cons_of_mem b hm))

theorem splitRun_comment_eoi (body : List Char) :
    ∀ (cur : List Char) (inString : Bool), '\n' ∉ body →
      splitRun body true inString cur = emitTrim cur := by
  induction body with
  | nil => intro cur inString _; rfl
  | cons b bs ih =>
    intro cur inString h
    have hb : ¬(b = '\n') := fun hb => h (by simp [hb])
    rw [splitRun.eq_def]
    simp only []
    rw [if_neg hb]
    exact ih cur inString (fun hm => h (List.mem_cons_of_mem b hm))

/-- C5: outside a string, `--` begins a line comment: its content up to and
including the next newline is discarded while a single newline is kept in
the buffer (so a `;` inside a comment never terminates a statement); a
comment running to end of input ends the scan, still emitting any non-empty
trimmed text accumulated before it. -/
theorem C5_line_comments :
    splitStatements "-- comment\nSELECT 1;" = ["SELECT 1"] ∧
    splitStatements "SELECT 2 -- tail; not a terminator" = ["SELECT 2"] ∧
    (∀ (body rest cur : List Char), '\n' ∉ body →
      splitRun ('-' :: '-' :: (body ++ '\n' :: rest)) false false cur
        = splitRun rest false false (cur ++ ['\n'])) ∧
    (∀ (body cur : List Char), '\n' ∉ body →
      splitRun ('-' :: '-' :: body) false false cur = emitTrim cur) := by
  refine ⟨by decide, by decide, ?_, ?_⟩
  · intro body rest cur h
    rw [splitRun.eq_def]
    simp only []
    rw [if_pos (by simp)]
    have : ('-' :: (body ++ '\n' :: rest)) = ('-' :: body) ++ '\n' :: rest := by simp
    rw [this]
    exact splitRun_comment_skip ('-' :: body) rest cur false
      (by simp [h, show ('-' : Char) ≠ '\n' by decide])
  · intro body cur h
    rw [splitRun.eq_def]
    simp only []
    rw [if_pos (by simp)]
    exact splitRun_comment_eoi ('-' :: body) cur false
      (by simp [h, show ('-' : Char) ≠ '\n' by decide])

/-- C5 witness: the comment rules applied at concrete inputs. -/
theorem C5_witness :
    ('\n' ∉ " c;".data ∧
      splitRun ('-' :: '-' :: (" c;".data ++ '\n' :: "SELECT 1;".data)) false false []
        = splitRun "SELECT 1;".data false false ([] ++ ['\n'])) ∧
      splitRun ('-' :: '-' :: " tail;".data) false false "SELECT 2 ".data
        = emitTrim "SELECT 2 ".data :=
  ⟨⟨by decide, C5_line_comments.2.2.1 _ _ _ (by decide)⟩,
    C5_line_comments.2.2.2 _ _ (by decide)⟩


/-! ## Lemmas about the masking engine -/

theorem idxOfChar_of_not_mem {c : Char} : ∀ {l : List Char}, c ∉ l → idxOfChar c l = l.length := by
  intro l
  induction l with
  | nil => intro _; rfl
  | cons d rest ih =>
    intro h
    have hd : ¬(d = c) := fun hd => h (by simp [hd])
    simp only [idxOfChar, if_neg hd, List.length_cons]
    rw [ih (fun hm => h (List.mem_cons_of_mem d hm))]

theorem idxOfChar_append {c : Char} {d : List Char} :
    ∀ {l : List Char}, c ∉ l → idxOfChar c (l ++ c :: d) = l.length := by
  intro l
  induction l with
  | nil => simp [idxOfChar]
  | cons e rest ih =>
    intro h
    have he : ¬(e = c) := fun he => h (by simp [he])
    simp only [List.cons_append, idxOfChar, if_neg he, List.length_cons, List.append_eq]
    rw [ih (fun hm => h (List.mem_cons_of_mem e hm))]

/-- Structure of `maskEmail` on a value decomposed as local part, `@`, and
domain: the shared computation behind C2, C6 and C10. -/
theorem maskEmail_split (l d : List Char) (hl : '@' ∉ l) (hne : l ≠ []) :
    maskEmail (String.mk (l ++ '@' :: d))
      = String.mk (l.take 1 ++ fillerL ++
          (if l.length = 1 then [] else l.drop (l.length - 1)) ++ '@' :: d) := by
  have hlen : 1 ≤ l.length := List.length_pos.mpr hne
  simp only [maskEmail]
  rw [idxOfChar_append hl]
  rw [if_pos ⟨hlen, by simp⟩]
  rw [List.take_left, List.drop_left]
  by_cases h1 : l.length = 1
  · rw [if_pos h1, if_pos h1]
    simp
  · rw [if_neg h1, if_neg h1]

/-- C6: the email mask keeps the first and last character of the local part
and the whole domain; a length-1 local part keeps only its first character
before the filler; values whose first `@` is absent or at index 0 become
the 8-character full mask literal. -/
theorem C6_maskEmail :
    maskEmail "alice@example.com" = "a••••e@example.com" ∧
    maskEmail "a@example.com" = "a••••@example.com" ∧
    (∀ (l d : List Char), '@' ∉ l → 2 ≤ l.length →
      maskEmail (String.mk (l ++ '@' :: d))
        = String.mk (l.take 1 ++ fillerL ++ l.drop (l.length - 1) ++ '@' :: d)) ∧
    (∀ (c : Char) (d : List Char), c ≠ '@' →
      maskEmail (String.mk (c :: '@' :: d)) = String.mk (c :: (fillerL ++ '@' :: d))) ∧
    (∀ s : String, '@' ∉ s.data → maskEmail s = MASK_RAW) ∧
    (∀ cs : List Char, maskEmail (String.mk ('@' :: cs)) = MASK_RAW) ∧
    MASK_RAW.length = 8 := by
  refine ⟨by decide, by decide, ?_, ?_, ?_, ?_, by decide⟩
  · intro l d hl hlen
    rw [maskEmail_split l d hl (by intro h; rw [h] at hlen; simp at hlen)]
    rw [if_neg (by omega)]
  · intro c d hc
    show maskEmail (String.mk ([c] ++ '@' :: d)) = String.mk (c :: (fillerL ++ '@' :: d))
    rw [maskEmail_split [c] d (by simp [Ne.symm hc]) (by simp)]
    simp
  · intro s hs
    simp only [maskEmail]
    rw [idxOfChar_of_not_mem hs]
    rw [if_neg (by rintro ⟨_, h⟩; exact absurd h (lt_irrefl _))]
  · intro cs
    simp only [maskEmail]
    rw [if_neg (by rintro ⟨h, _⟩; simp [idxOfChar] at h)]

/-- C6 witness: the general local/domain decomposition rule applied at a
concrete email value. -/
theorem C6_witness :
    ('@' ∉ "alice".data ∧ 2 ≤ "alice".data.length) ∧
      maskEmail (String.mk ("alice".data ++ '@' :: "example.com".data))
        = String.mk ("alice".data.take 1 ++ fillerL ++
            "alice".data.drop ("alice".data.length - 1) ++ '@' :: "example.com".data) :=
  ⟨⟨by decide, by decide⟩, C6_maskEmail.2.2.1 _ _ (by decide) (by decide)⟩

theorem getD_map_lt {α β : Type} (f : α → β) (l : List α) (i : Nat) (d : β) (d' : α)
    (h : i < l.length) : (l.map f).getD i d = f (l.getD i d') := by
  rw [List.getD_eq_getElem?_getD, List.getD_eq_getElem?_getD, List.getElem?_map,
    List.getElem?_eq_getElem h]
  simp

theorem drop_sub_one_eq_getLast_toList :
    ∀ (l : List Char), l ≠ [] → l.drop (l.length - 1) = l.getLast?.toList := by
  intro l
  induction l with
  | nil => intro h; exact absurd rfl h
  | cons a t ih =>
    intro _
    cases t with
    | nil => rfl
    | cons b t' =>
      have hstep : (a :: b :: t').length - 1 = ((b :: t').length - 1) + 1 := by
        simp [List.length_cons]
      rw [hstep, List.drop_succ_cons, List.getLast?_cons_cons]
      exact ih (by simp)

/-- C2 -- the claim as frozen is false: the email mask is not idempotent on
a value whose local part has length 1 (re-masking grows the filler). -/
theorem C2_counterexample :
    ¬(maskEmail (maskEmail "a@x.com") = maskEmail "a@x.com") ∧
      maskEmail "a@x.com" = "a••••@x.com" ∧
      maskEmail (maskEmail "a@x.com") = "a•••••@x.com" :=
  ⟨by decide, by decide, by decide⟩

/-- C2 (amended): the full mask is idempotent on every non-null value; the
email mask is idempotent on values whose local part has length at least 2
and on values with no `@` at index ≥ 1 (it is not for length-1 local
parts); and the json-mode rendering of column `i` depends only on column
`i`'s name and that cell's value, never on any other column or cell. -/
theorem C2_masking_idempotent_and_independent :
    (∀ v : Value, v ≠ .null →
      applyMaskRaw (.str (applyMaskRaw v .full)) .full = applyMaskRaw v .full) ∧
    (∀ (l d : List Char), '@' ∉ l → 2 ≤ l.length →
      maskEmail (maskEmail (String.mk (l ++ '@' :: d)))
        = maskEmail (String.mk (l ++ '@' :: d))) ∧
    (∀ s : String, ¬(1 ≤ idxOfChar '@' s.data ∧ idxOfChar '@' s.data < s.data.length) →
      maskEmail (maskEmail s) = maskEmail s) ∧
    (∀ (cols cols' : List String) (row row' : List Value) (masked : Bool) (i : Nat),
      i < cols.length → i < cols'.length →
      cols.getD i "" = cols'.getD i "" → row.getD i .null = row'.getD i .null →
      jsonCell cols row masked i = jsonCell cols' row' masked i) := by
  refine ⟨?_, ?_, ?_, ?_⟩
  · intro v hv
    cases v with
    | null => exact absurd rfl hv
    | str s => simp [applyMaskRaw, formatValueRaw]
    | int n => simp [applyMaskRaw, formatValueRaw]
    | bool b => simp [applyMaskRaw, formatValueRaw]
  · intro l d hl hlen
    have hne : l ≠ [] := by intro h; rw [h] at hlen; simp at hlen
    have h1 : ¬(l.length = 1) := by omega
    rw [maskEmail_split l d hl hne, if_neg h1]
    obtain ⟨x, hx⟩ := List.length_eq_one.mp (show (l.drop (l.length - 1)).length = 1 by
      rw [List.length_drop]; omega)
    obtain ⟨h, hh⟩ := List.length_eq_one.mp (show (l.take 1).length = 1 by
      rw [List.length_take]; omega)
    rw [hx, hh]
    have hmem_h : h ∈ l := (List.take_subset 1 l) (hh ▸ List.mem_singleton_self h)
    have hmem_x : x ∈ l := (List.drop_subset _ l) (hx ▸ List.mem_singleton_self x)
    have hstep :
        ([h] ++ fillerL ++ [x] ++ '@' :: d) = (h :: (fillerL ++ [x])) ++ '@' :: d := by
      simp
    rw [hstep, maskEmail_split (h :: (fillerL ++ [x])) d ?notat (by simp), if_neg (by simp)]
    case notat =>
      intro hmm
      rcases List.mem_cons.mp hmm with he | h2
      · exact hl (he ▸ hmem_h)
      · rcases List.mem_append.mp h2 with h3 | h4
        · revert h3; decide
        · have hx4 : ('@' : Char) = x := List.mem_singleton.mp h4
          exact hl (by rw [hx4]; exact hmem_x)
    simp
  · intro s hcond
    have hmask : maskEmail s = MASK_RAW := by
      simp only [maskEmail]
      rw [if_neg hcond]
    rw [hmask]
    decide
  · intro cols cols' row row' masked i h1 h2 hcol hrow
    simp only [jsonCell, columnMasks]
    rw [getD_map_lt _ cols i _ "" h1, getD_map_lt _ cols' i _ "" h2, hcol, hrow]

/-- C2 witness: email-mask idempotence applied at a concrete two-character
local part. -/
theorem C2_witness :
    ('@' ∉ "ab".data ∧ 2 ≤ "ab".data.length) ∧
      maskEmail (maskEmail (String.mk ("ab".data ++ '@' :: "x.io".data)))
        = maskEmail (String.mk ("ab".data ++ '@' :: "x.io".data)) :=
  ⟨⟨by decide, by decide⟩,
    C2_masking_idempotent_and_independent.2.1 _ _ (by decide) (by decide)⟩

/-- C10: masked email displays depend only on the first character of the
local part, its last character (when both local parts have length ≥ 2),
the length-1-versus-longer distinction, and the domain; the filler is a
fixed four-character literal, so nothing else about the local part is
recoverable. -/
theorem C10_maskEmail_noninterference :
    (∀ (l1 l2 d : List Char), '@' ∉ l1 → '@' ∉ l2 →
      l1.take 1 = l2.take 1 →
      ((l1.length = 1 ∧ l2.length = 1) ∨
        (2 ≤ l1.length ∧ 2 ≤ l2.length ∧ l1.getLast? = l2.getLast?)) →
      maskEmail (String.mk (l1 ++ '@' :: d)) = maskEmail (String.mk (l2 ++ '@' :: d))) ∧
    fillerL.length = 4 := by
  refine ⟨?_, by decide⟩
  intro l1 l2 d h1 h2 htake hcase
  rcases hcase with ⟨h1len, h2len⟩ | ⟨h1len, h2len, hlast⟩
  · obtain ⟨x1, rfl⟩ := List.length_eq_one.mp h1len
    obtain ⟨x2, rfl⟩ := List.length_eq_one.mp h2len
    simp only [List.take_succ_cons, List.take_nil, List.cons.injEq, and_true] at htake
    rw [htake]
  · have hne1 : l1 ≠ [] := by intro h; rw [h] at h1len; simp at h1len
    have hne2 : l2 ≠ [] := by intro h; rw [h] at h2len; simp at h2len
    rw [maskEmail_split l1 d h1 hne1, maskEmail_split l2 d h2 hne2,
      if_neg (by omega), if_neg (by omega), htake,
      drop_sub_one_eq_getLast_toList l1 hne1, drop_sub_one_eq_getLast_toList l2 hne2, hlast]

/-- C10 witness: two distinct email values agreeing on first, last and
domain mask to the same display. -/
theorem C10_witness :
    ('@' ∉ "alice".data ∧ '@' ∉ "aqqqqqze".data ∧
      "alice".data.take 1 = "aqqqqqze".data.take 1 ∧
      2 ≤ "alice".data.length ∧ 2 ≤ "aqqqqqze".data.length ∧
      "alice".data.getLast? = "aqqqqqze".data.getLast?) ∧
      maskEmail (String.mk ("alice".data ++ '@' :: "x.com".data))
        = maskEmail (String.mk ("aqqqqqze".data ++ '@' :: "x.com".data)) :=
  ⟨⟨by decide, by decide, by decide, by decide, by decide, by decide⟩,
    C10_maskEmail_noninterference.1 _ _ _ (by decide) (by decide) (by decide)
      (Or.inr ⟨by decide, by decide, by decide⟩)⟩

/-! ## Lemmas about the JSON renderer -/

theorem getD_eq_getElem_of_lt {α : Type} (l : List α) (d : α) {i : Nat} (h : i < l.length) :
    l.getD i d = l[i] := by
  rw [List.getD_eq_getElem?_getD, List.getElem?_eq_getElem h]
  rfl

theorem map_getD_range {α : Type} [Inhabited α] (l : List α) (d : α) :
    (List.range l.length).map (fun i => l.getD i d) = l := by
  apply List.ext_getElem
  · simp
  · intro i h1 h2
    simp only [List.getElem_map, List.getElem_range]
    exact getD_eq_getElem_of_lt l d h2

theorem jsSet_fresh (obj : List (String × Value)) (k : String) (v : Value)
    (h : k ∉ obj.map Prod.fst) : jsSet obj k v = obj ++ [(k, v)] := by
  have hany : obj.any (fun p => p.1 == k) = false := by
    rw [List.any_eq_false]
    intro p hp
    simp only [beq_iff_eq]
    intro hpk
    exact h (hpk ▸ List.mem_map_of_mem Prod.fst hp)
  simp [jsSet, hany]

theorem renderJsonRow_nodup (cols : List String) (row : List Value) (masked : Bool)
    (hN : cols.Nodup) :
    renderJsonRow cols row masked
      = (List.range cols.length).map
          (fun i => (cols.getD i "", jsonCell cols row masked i)) := by
  suffices haux : ∀ n, n ≤ cols.length →
      (List.range n).foldl
          (fun obj i => jsSet obj (cols.getD i "") (jsonCell cols row masked i)) []
        = (List.range n).map (fun i => (cols.getD i "", jsonCell cols row masked i)) by
    exact haux cols.length le_rfl
  intro n
  induction n with
  | zero => intro _; rfl
  | succ m ih =>
    intro hle
    have hm : m < cols.length := hle
    rw [List.range_succ, List.foldl_append, List.map_append, ih (Nat.le_of_lt hm)]
    simp only [List.foldl_cons, List.foldl_nil, List.map_cons, List.map_nil]
    rw [jsSet_fresh]
    rw [List.map_map]
    intro hmem
    obtain ⟨j, hj, hjeq⟩ := List.mem_map.mp hmem
    have hjm : j < m := List.mem_range.mp hj
    have hjlen : j < cols.length := Nat.lt_trans hjm hm
    simp only [Function.comp] at hjeq
    rw [getD_eq_getElem_of_lt cols "" hjlen, getD_eq_getElem_of_lt cols "" hm] at hjeq
    have hinj := List.nodup_iff_injective_get.mp hN
    have : (⟨j, hjlen⟩ : Fin cols.length) = ⟨m, hm⟩ := by
      apply hinj
      simp only [List.get_eq_getElem]
      exact hjeq
    have hjm2 : j = m := congrArg Fin.val this
    omega

theorem jsGet_of_nodup_mem :
    ∀ {obj : List (String × Value)} {k : String} {v : Value},
      (obj.map Prod.fst).Nodup → (k, v) ∈ obj → jsGet obj k = some v := by
  intro obj
  induction obj with
  | nil => intro k v _ hmem; simp at hmem
  | cons p rest ih =>
    intro k v hN hmem
    rw [List.map_cons, List.nodup_cons] at hN
    rcases List.mem_cons.mp hmem with rfl | hmem2
    · simp [jsGet, List.find?_cons_of_pos]
    · have hk : (p.1 == k) = false := by
        simp only [beq_eq_false_iff_ne, ne_eq]
        intro he
        exact hN.1 (he ▸ List.mem_map_of_mem Prod.fst hmem2)
      show jsGet (p :: rest) k = some v
      unfold jsGet
      rw [List.find?_cons_of_neg _ (by simp [hk])]
      exact ih hN.2 hmem2

/-- C3 -- the claim as frozen is false for duplicate column names: the json
row object keys collapse, so the first duplicate's value (here the value
`1` of an unmasked, non-sensitive column) is absent from the rendering. -/
theorem C3_counterexample :
    renderJsonRow ["a", "a"] [Value.int 1, Value.int 2] true = [("a", Value.int 2)] ∧
      columnMaskType "a" = .none ∧
      Value.int 1 ∉ (renderJsonRow ["a", "a"] [Value.int 1, Value.int 2] true).map Prod.snd ∧
      ¬((renderJsonRow ["a", "a"] [Value.int 1, Value.int 2] true).map Prod.fst = ["a", "a"]) :=
  ⟨by decide, by decide, by decide, by decide⟩

/-- C3 (amended): for a result set with pairwise-distinct column names and
rows matching the column count, the json rendering preserves the column
sequence as the object keys, and every unmasked or non-sensitive column's
value can be read back from its row object unchanged. -/
theorem C3_json_round_trip (rs : ResultSet) (masked : Bool)
    (hN : rs.columns.Nodup)
    (_hLen : ∀ row ∈ rs.rows, row.length = rs.columns.length) :
    (∀ obj ∈ renderJson rs masked, obj.map Prod.fst = rs.columns) ∧
    (∀ row ∈ rs.rows, ∀ i, i < rs.columns.length →
      (masked = false ∨ columnMaskType (rs.columns.getD i "") = .none) →
      jsGet (renderJsonRow rs.columns row masked) (rs.columns.getD i "")
        = some (row.getD i .null)) := by
  constructor
  · intro obj hobj
    obtain ⟨row, _, rfl⟩ := List.mem_map.mp hobj
    rw [renderJsonRow_nodup rs.columns row masked hN, List.map_map]
    exact map_getD_range rs.columns ""
  · intro row _ i hi hmask
    have hkeys : ((renderJsonRow rs.columns row masked).map Prod.fst).Nodup := by
      rw [renderJsonRow_nodup rs.columns row masked hN, List.map_map]
      rw [show ((fun p => p.1) ∘ fun i => (rs.columns.getD i "", jsonCell rs.columns row masked i))
          = fun i => rs.columns.getD i "" from rfl]
      rw [map_getD_range rs.columns ""]
      exact hN
    have hcell : jsonCell rs.columns row masked i = row.getD i .null := by
      unfold jsonCell columnMasks
      rw [getD_map_lt _ rs.columns i _ "" hi]
      rcases hmask with hm | hm
      · subst hm
        simp [jsonCellValue]
      · rw [hm]
        cases masked <;> simp [jsonCellValue]
    have hmem : (rs.columns.getD i "", jsonCell rs.columns row masked i)
        ∈ renderJsonRow rs.columns row masked := by
      rw [renderJsonRow_nodup rs.columns row masked hN]
      exact List.mem_map_of_mem _ (List.mem_range.mpr hi)
    rw [← hcell]
    exact jsGet_of_nodup_mem hkeys hmem

/-- C3 witness: the round trip read back on a concrete two-column result. -/
theorem C3_witness :
    ((["id", "email"] : List String).Nodup ∧
      (∀ row ∈ ([[Value.int 1, Value.str "x@y.z"]] : List (List Value)), row.length = 2)) ∧
      jsGet (renderJsonRow ["id", "email"] [Value.int 1, Value.str "x@y.z"] true) "id"
        = some (Value.int 1) :=
  ⟨⟨by decide, by decide⟩,
    (C3_json_round_trip ⟨["id", "email"], [[Value.int 1, Value.str "x@y.z"]], 0⟩ true
        (by decide) (by decide)).2
      [Value.int 1, Value.str "x@y.z"] (by decide) 0 (by decide) (Or.inr (by decide))⟩

/-- C7: json mode renders each row as a column-to-value object in column
order; masked sensitive non-null cells become plain masked strings, null
stays null regardless of the mask policy, and unmasked cells keep the
source value (numbers stay numeric); the end-to-end scenario of the spec
holds in both masked and unmasked renderings. -/
theorem C7_json_masking :
    renderJson ⟨["id", "password"], [[Value.int 1, Value.str "hunter2"]], 0⟩ true
      = [[("id", Value.int 1), ("password", Value.str "********")]] ∧
    renderJson ⟨["id", "password"], [[Value.int 1, Value.str "hunter2"]], 0⟩ false
      = [[("id", Value.int 1), ("password", Value.str "hunter2")]] ∧
    (∀ m : MaskType, jsonCellValue .null m = .null) ∧
    (∀ v : Value, jsonCellValue v .none = v) ∧
    (∀ (v : Value) (m : MaskType), v ≠ .null → m ≠ .none →
      jsonCellValue v m = .str (applyMaskRaw v m)) := by
  refine ⟨by decide, by decide, ?_, ?_, ?_⟩
  · intro m
    simp [jsonCellValue]
  · intro v
    simp [jsonCellValue]
  · intro v m hv hm
    rw [jsonCellValue, if_neg (by rintro (h | h); exacts [hv h, hm h])]

/-- C7 witness: the masked-cell rule applied at a concrete value and mask. -/
theorem C7_witness :
    (Value.int 7 ≠ Value.null ∧ MaskType.full ≠ MaskType.none) ∧
      jsonCellValue (Value.int 7) MaskType.full
        = Value.str (applyMaskRaw (Value.int 7) MaskType.full) :=
  ⟨⟨by decide, by decide⟩, C7_json_masking.2.2.2.2 (Value.int 7) MaskType.full
    (by decide) (by decide)⟩

/-! ## Lemmas about the history store -/

theorem splitOnCharL_append_sep {sep : Char} :
    ∀ {cs : List Char} (rest : List Char), sep ∉ cs →
      splitOnCharL sep (cs ++ sep :: rest) = cs :: splitOnCharL sep rest := by
  intro cs
  induction cs with
  | nil => intro rest _; simp [splitOnCharL]
  | cons c cs' ih =>
    intro rest h
    have hc : ¬(c = sep) := fun hc => h (by simp [hc])
    simp only [List.cons_append, splitOnCharL, if_neg hc, List.append_eq]
    rw [ih rest (fun hm => h (List.mem_cons_of_mem c hm))]

theorem loadHistory_of_joinNl :
    ∀ (ls : List String), (∀ l ∈ ls, l ≠ "" ∧ '\n' ∉ l.data) →
      ((splitOnCharL '\n' (joinNl ls ++ "\n").data).map String.mk).filter
          (fun l => l.length > 0) = ls := by
  intro ls
  induction ls with
  | nil => intro _; decide
  | cons l tl ih =>
    intro h
    obtain ⟨hne, hnl⟩ := h l (List.mem_cons_self l tl)
    have hmk : String.mk l.data = l := rfl
    have hlen : 0 < l.length := by
      cases hl : l.data with
      | nil => exact absurd (by cases l; simp_all) hne
      | cons a as => show 0 < l.data.length; rw [hl]; simp
    cases tl with
    | nil =>
      show ((splitOnCharL '\n' (l ++ "\n").data).map String.mk).filter
          (fun l => l.length > 0) = [l]
      rw [show (l ++ "\n").data = l.data ++ '\n' :: [] from by simp [String.data_append]]
      rw [splitOnCharL_append_sep [] hnl]
      show (([l, ""] : List String).filter (fun x => x.length > 0)) = [l]
      simp [List.filter_cons, hlen]
    | cons l2 tl2 =>
      show ((splitOnCharL '\n' ((l ++ "\n" ++ joinNl (l2 :: tl2)) ++ "\n").data).map
          String.mk).filter (fun l => l.length > 0) = l :: l2 :: tl2
      rw [show ((l ++ "\n" ++ joinNl (l2 :: tl2)) ++ "\n").data
          = l.data ++ '\n' :: (joinNl (l2 :: tl2) ++ "\n").data from by
        simp [String.data_append]]
      rw [splitOnCharL_append_sep _ hnl, List.map_cons, List.filter_cons, hmk]
      rw [if_pos (by simp [hlen])]
      rw [ih (fun x hx => h x (List.mem_cons_of_mem l hx))]

/-- C9: loading from an absent history file yields the empty history, and a
save followed by a load returns exactly the most recent `HISTORY_MAX`
entries -- at most 1000 lines, a suffix of the saved list, dropping only the
oldest entries.  The hypotheses are the history-file layout of the spec:
entries are non-empty single lines. -/
theorem C9_history_bounded :
    loadHistory Option.none = [] ∧
    (∀ (lines : List String) (fs : Option String),
      (∀ l ∈ lines, l ≠ "" ∧ '\n' ∉ l.data) →
      loadHistory (saveHistory lines fs) = lines.drop (lines.length - HISTORY_MAX) ∧
      (loadHistory (saveHistory lines fs)).length ≤ HISTORY_MAX ∧
      (lines.drop (lines.length - HISTORY_MAX)) <:+ lines) := by
  refine ⟨rfl, ?_⟩
  intro lines fs h
  have hkept : ∀ l ∈ lines.drop (lines.length - HISTORY_MAX), l ≠ "" ∧ '\n' ∉ l.data :=
    fun l hl => h l (List.drop_subset _ lines hl)
  have heq : loadHistory (saveHistory lines fs)
      = lines.drop (lines.length - HISTORY_MAX) := by
    show ((splitOnCharL '\n'
        (joinNl (lines.drop (lines.length - HISTORY_MAX)) ++ "\n").data).map
        String.mk).filter (fun l => l.length > 0) = _
    exact loadHistory_of_joinNl _ hkept
  refine ⟨heq, ?_, ?_⟩
  · rw [heq, List.length_drop]
    omega
  · exact ⟨lines.take (lines.length - HISTORY_MAX), List.take_append_drop _ _⟩

/-- C9 witness: a short history round-trips unchanged. -/
theorem C9_witness :
    (∀ l ∈ (["one", "two", "three"] : List String), l ≠ "" ∧ '\n' ∉ l.data) ∧
      loadHistory (saveHistory ["one", "two", "three"] Option.none)
        = (["one", "two", "three"] : List String).drop
            ((["one", "two", "three"] : List String).length - HISTORY_MAX) :=
  ⟨by decide, (C9_history_bounded.2 ["one", "two", "three"] Option.none (by decide)).1⟩

/-! ## Lemmas about the dot-command dispatcher -/

theorem wsTokensAux_append_nows :
    ∀ (l cs cur : List Char), (∀ c ∈ l, isWsChar c = false) →
      wsTokensAux (l ++ cs) cur = wsTokensAux cs (l.reverse ++ cur) := by
  intro l
  induction l with
  | nil => intro cs cur _; simp
  | cons c l' ih =>
    intro cs cur h
    have hc : isWsChar c = false := h c (List.mem_cons_self c l')
    simp only [List.cons_append, wsTokensAux, hc, Bool.false_eq_true, if_false, List.append_eq]
    rw [ih cs (c :: cur) (fun x hx => h x (List.mem_cons_of_mem c hx))]
    simp [List.reverse_cons, List.append_assoc]

theorem jsTrimL_eq_self {cs : List Char}
    (hh : ∀ c, cs.head? = some c → isWsChar c = false)
    (hl : ∀ c, cs.getLast? = some c → isWsChar c = false) :
    jsTrimL cs = cs := by
  unfold jsTrimL
  have h1 : cs.dropWhile isWsChar = cs := by
    cases cs with
    | nil => rfl
    | cons a t => simp [List.dropWhile_cons, hh a rfl]
  rw [h1]
  have h2 : cs.reverse.dropWhile isWsChar = cs.reverse := by
    cases hr : cs.reverse with
    | nil => rfl
    | cons a t =>
      have ha : cs.getLast? = some a := by
        rw [← List.head?_reverse, hr]
        rfl
      simp [List.dropWhile_cons, hl a ha]
  rw [h2, List.reverse_reverse]

theorem data_ne_nil_of_ne_empty {s : String} (h : s ≠ "") : s.data ≠ [] := by
  intro hd
  apply h
  cases s
  simp_all

theorem splitWs_two_tokens (cmd t : String)
    (hcmd : ∀ c ∈ cmd.data, isWsChar c = false) (hcne : cmd ≠ "")
    (ht : ∀ c ∈ t.data, isWsChar c = false) (htne : t ≠ "") :
    splitWs (cmd ++ " " ++ t) = [cmd, t] := by
  have hcd : cmd.data ≠ [] := data_ne_nil_of_ne_empty hcne
  have htd : t.data ≠ [] := data_ne_nil_of_ne_empty htne
  have hdata : (cmd ++ " " ++ t).data = cmd.data ++ ' ' :: t.data := by
    simp [String.data_append]
  have htrim : jsTrimL (cmd ++ " " ++ t).data = cmd.data ++ ' ' :: t.data := by
    rw [hdata]
    apply jsTrimL_eq_self
    · intro c hc
      cases hcd' : cmd.data with
      | nil => exact absurd hcd' hcd
      | cons c0 cd =>
        rw [hcd', List.cons_append, List.head?_cons, Option.some.injEq] at hc
        subst hc
        exact hcmd c0 (by rw [hcd']; exact List.mem_cons_self _ _)
    · intro c hc
      rw [← List.head?_reverse, List.reverse_append, List.reverse_cons,
        List.append_assoc] at hc
      cases htd' : t.data.reverse with
      | nil => exact absurd (by simpa using htd') htd
      | cons c0 cd =>
        rw [htd', List.cons_append, List.head?_cons, Option.some.injEq] at hc
        subst hc
        have hcm : c0 ∈ t.data.reverse := by rw [htd']; exact List.mem_cons_self _ _
        exact ht c0 (List.mem_reverse.mp hcm)
  unfold splitWs
  rw [htrim]
  rw [if_neg (by simp [hcd])]
  rw [show cmd.data ++ ' ' :: t.data = cmd.data ++ (' ' :: t.data) from rfl]
  rw [wsTokensAux_append_nows cmd.data (' ' :: t.data) [] hcmd]
  rw [show wsTokensAux (' ' :: t.data) (cmd.data.reverse ++ [])
      = (cmd.data.reverse ++ []).reverse :: wsTokensAux t.data [] from by
    simp only [wsTokensAux]
    rw [if_pos (by decide), if_neg (by simp [hcd])]]
  rw [show wsTokensAux t.data [] = [t.data] from by
    rw [show t.data = t.data ++ [] from by simp,
      wsTokensAux_append_nows t.data [] [] ht]
    simp only [wsTokensAux]
    rw [if_neg (by simp [htd])]
    simp]
  simp

theorem count_decline_trace (t : String) (db : String → ResultSet)
    (st : ShellState) (answer : String)
    (ht : ∀ c ∈ t.data, isWsChar c = false) (htne : t ≠ "")
    (hno : confirmYes answer = false) :
    executeDotCommand (".count " ++ t) db st answer
      = (.handled, st, [.confirmAsk]) := by
  have hs : splitWs (".count " ++ t) = [".count", t] := by
    rw [show (".count " : String) = ".count" ++ " " from by decide]
    exact splitWs_two_tokens ".count" t (by decide) (by decide) ht htne
  simp only [executeDotCommand, hs, List.headD]
  simp only [show jsToLower ".count" = ".count" from by decide]
  rw [if_neg (by decide), if_neg (by decide), if_neg (by decide), if_neg (by decide),
    if_neg (by decide), if_pos trivial]
  simp only [List.get?_cons_succ, List.get?_cons_zero]
  rw [if_pos hno]

theorem count_accept_trace (t : String) (db : String → ResultSet)
    (st : ShellState) (answer : String)
    (ht : ∀ c ∈ t.data, isWsChar c = false) (htne : t ≠ "")
    (hyes : confirmYes answer = true) :
    executeDotCommand (".count " ++ t) db st answer
      = (.handled, st, [.confirmAsk, .query (countQuery t)]) := by
  have hs : splitWs (".count " ++ t) = [".count", t] := by
    rw [show (".count " : String) = ".count" ++ " " from by decide]
    exact splitWs_two_tokens ".count" t (by decide) (by decide) ht htne
  simp only [executeDotCommand, hs, List.headD]
  simp only [show jsToLower ".count" = ".count" from by decide]
  rw [if_neg (by decide), if_neg (by decide), if_neg (by decide), if_neg (by decide),
    if_neg (by decide), if_pos trivial]
  simp only [List.get?_cons_succ, List.get?_cons_zero]
  rw [if_neg (by simp [hyes])]

theorem dump_noarg_decline_trace (db : String → ResultSet)
    (st : ShellState) (answer : String) (hno : confirmYes answer = false) :
    executeDotCommand ".dump" db st answer = (.handled, st, [.confirmAsk]) := by
  simp only [executeDotCommand]
  rw [show splitWs ".dump" = [".dump"] from by decide]
  simp only [List.headD]
  simp only [show jsToLower ".dump" = ".dump" from by decide]
  rw [if_neg (by decide), if_neg (by decide), if_neg (by decide), if_neg (by decide),
    if_neg (by decide), if_neg (by decide), if_pos trivial]
  rw [if_pos hno]

theorem dump_arg_decline_trace (t : String) (db : String → ResultSet)
    (st : ShellState) (answer : String)
    (ht : ∀ c ∈ t.data, isWsChar c = false) (htne : t ≠ "")
    (hno : confirmYes answer = false) :
    executeDotCommand (".dump " ++ t) db st answer = (.handled, st, [.confirmAsk]) := by
  have hs : splitWs (".dump " ++ t) = [".dump", t] := by
    rw [show (".dump " : String) = ".dump" ++ " " from by decide]
    exact splitWs_two_tokens ".dump" t (by decide) (by decide) ht htne
  simp only [executeDotCommand, hs, List.headD]
  simp only [show jsToLower ".dump" = ".dump" from by decide]
  rw [if_neg (by decide), if_neg (by decide), if_neg (by decide), if_neg (by decide),
    if_neg (by decide), if_neg (by decide), if_pos trivial]
  rw [if_pos hno]

theorem dump_arg_accept_trace (t : String) (db : String → ResultSet)
    (st : ShellState) (answer : String)
    (ht : ∀ c ∈ t.data, isWsChar c = false) (htne : t ≠ "")
    (hyes : confirmYes answer = true) :
    executeDotCommand (".dump " ++ t) db st answer
      = (.handled, st, [.confirmAsk, .query (dumpSchemaQuery t), .query (dumpDataQuery t)]) := by
  have hs : splitWs (".dump " ++ t) = [".dump", t] := by
    rw [show (".dump " : String) = ".dump" ++ " " from by decide]
    exact splitWs_two_tokens ".dump" t (by decide) (by decide) ht htne
  simp only [executeDotCommand, hs, List.headD]
  simp only [show jsToLower ".dump" = ".dump" from by decide]
  rw [if_neg (by decide), if_neg (by decide), if_neg (by decide), if_neg (by decide),
    if_neg (by decide), if_neg (by decide), if_pos trivial]
  rw [if_neg (by simp [hyes])]
  simp only [List.get?_cons_succ, List.get?_cons_zero]
  rfl

theorem size_decline_trace (t : String) (db : String → ResultSet)
    (st : ShellState) (answer : String)
    (ht : ∀ c ∈ t.data, isWsChar c = false) (htne : t ≠ "")
    (hfound : jsFalsy (firstCell (db (sizeSchemaQuery t))) = false)
    (hno : confirmYes answer = false) :
    executeDotCommand (".size " ++ t) db st answer
      = (.handled, st, [.query (sizeSchemaQuery t), .confirmAsk]) := by
  have hs : splitWs (".size " ++ t) = [".size", t] := by
    rw [show (".size " : String) = ".size" ++ " " from by decide]
    exact splitWs_two_tokens ".size" t (by decide) (by decide) ht htne
  simp only [executeDotCommand, hs, List.headD]
  simp only [show jsToLower ".size" = ".size" from by decide]
  rw [if_neg (by decide), if_neg (by decide), if_neg (by decide), if_neg (by decide),
    if_neg (by decide), if_neg (by decide), if_neg (by decide), if_neg (by decide),
    if_neg (by decide), if_neg (by decide), if_neg (by decide), if_pos trivial]
  simp only [List.get?_cons_succ, List.get?_cons_zero]
  rw [if_neg (by simp [hfound]), if_pos hno]

theorem size_accept_trace (t : String) (db : String → ResultSet)
    (st : ShellState) (answer : String)
    (ht : ∀ c ∈ t.data, isWsChar c = false) (htne : t ≠ "")
    (hfound : jsFalsy (firstCell (db (sizeSchemaQuery t))) = false)
    (hyes : confirmYes answer = true) :
    executeDotCommand (".size " ++ t) db st answer
      = (.handled, st,
          [.query (sizeSchemaQuery t), .confirmAsk, .query (sizeCountQuery t),
           .query (sizeColsQuery t), .query (sizeIdxQuery t)]) := by
  have hs : splitWs (".size " ++ t) = [".size", t] := by
    rw [show (".size " : String) = ".size" ++ " " from by decide]
    exact splitWs_two_tokens ".size" t (by decide) (by decide) ht htne
  simp only [executeDotCommand, hs, List.headD]
  simp only [show jsToLower ".size" = ".size" from by decide]
  rw [if_neg (by decide), if_neg (by decide), if_neg (by decide), if_neg (by decide),
    if_neg (by decide), if_neg (by decide), if_neg (by decide), if_neg (by decide),
    if_neg (by decide), if_neg (by decide), if_neg (by decide), if_pos trivial]
  simp only [List.get?_cons_succ, List.get?_cons_zero]
  rw [if_neg (by simp [hfound]), if_neg (by simp [hyes])]

theorem sizeCountQuery_ne_sizeSchemaQuery (t : String) :
    sizeCountQuery t ≠ sizeSchemaQuery t := by
  intro h
  have h8 := congrArg (fun s => s.data.take 8) h
  simp only [sizeCountQuery, sizeSchemaQuery, String.data_append, List.append_assoc] at h8
  rw [List.take_append_of_le_length (by decide),
    List.take_append_of_le_length (by decide)] at h8
  exact absurd h8 (by decide)

/-- C8: each full-table-scan dot-command (`.count`, `.dump`, `.size`) asks
for confirmation before its scan query appears in the event trace, and a
declined confirmation produces `handled` with no scan query, no state
change and no error; for `.size` in particular, only the `sqlite_master`
schema lookup (never the `COUNT(*)` row scan) runs when the user declines. -/
theorem C8_scan_commands_gated :
    (∀ (t : String) (db : String → ResultSet) (st : ShellState) (answer : String),
      (∀ c ∈ t.data, isWsChar c = false) → t ≠ "" →
      (confirmYes answer = false →
        executeDotCommand (".count " ++ t) db st answer = (.handled, st, [.confirmAsk])) ∧
      (confirmYes answer = true →
        executeDotCommand (".count " ++ t) db st answer
          = (.handled, st, [.confirmAsk, .query (countQuery t)]))) ∧
    (∀ (db : String → ResultSet) (st : ShellState) (answer : String),
      confirmYes answer = false →
      executeDotCommand ".dump" db st answer = (.handled, st, [.confirmAsk])) ∧
    (∀ (t : String) (db : String → ResultSet) (st : ShellState) (answer : String),
      (∀ c ∈ t.data, isWsChar c = false) → t ≠ "" →
      (confirmYes answer = false →
        executeDotCommand (".dump " ++ t) db st answer = (.handled, st, [.confirmAsk])) ∧
      (confirmYes answer = true →
        executeDotCommand (".dump " ++ t) db st answer
          = (.handled, st,
              [.confirmAsk, .query (dumpSchemaQuery t), .query (dumpDataQuery t)]))) ∧
    (∀ (t : String) (db : String → ResultSet) (st : ShellState) (answer : String),
      (∀ c ∈ t.data, isWsChar c = false) → t ≠ "" →
      jsFalsy (firstCell (db (sizeSchemaQuery t))) = false →
      (confirmYes answer = false →
        executeDotCommand (".size " ++ t) db st answer
          = (.handled, st, [.query (sizeSchemaQuery t), .confirmAsk]) ∧
        ShellEv.query (sizeCountQuery t)
          ∉ [ShellEv.query (sizeSchemaQuery t), ShellEv.confirmAsk]) ∧
      (confirmYes answer = true →
        executeDotCommand (".size " ++ t) db st answer
          = (.handled, st,
              [.query (sizeSchemaQuery t), .confirmAsk, .query (sizeCountQuery t),
               .query (sizeColsQuery t), .query (sizeIdxQuery t)]))) := by
  refine ⟨?_, ?_, ?_, ?_⟩
  · intro t db st answer ht htne
    exact ⟨count_decline_trace t db st answer ht htne,
      count_accept_trace t db st answer ht htne⟩
  · intro db st answer hno
    exact dump_noarg_decline_trace db st answer hno
  · intro t db st answer ht htne
    exact ⟨dump_arg_decline_trace t db st answer ht htne,
      dump_arg_accept_trace t db st answer ht htne⟩
  · intro t db st answer ht htne hfound
    refine ⟨fun hno => ⟨size_decline_trace t db st answer ht htne hfound hno, ?_⟩,
      size_accept_trace t db st answer ht htne hfound⟩
    simp [sizeCountQuery_ne_sizeSchemaQuery t]

/-- C8 witness: declining the `.size users` confirmation runs only the
schema lookup on a database that reports the table to exist. -/
theorem C8_witness :
    ((∀ c ∈ "users".data, isWsChar c = false) ∧ "users" ≠ "" ∧
      confirmYes "n" = false ∧
      jsFalsy (firstCell ((fun _ => (⟨["sql"], [[Value.str "CREATE TABLE users (id)"]], 0⟩ : ResultSet))
        (sizeSchemaQuery "users"))) = false) ∧
      executeDotCommand (".size " ++ "users")
          (fun _ => ⟨["sql"], [[Value.str "CREATE TABLE users (id)"]], 0⟩)
          ⟨.default, true, false⟩ "n"
        = (.handled, ⟨.default, true, false⟩,
            [.query (sizeSchemaQuery "users"), .confirmAsk]) :=
  ⟨⟨by decide, by decide, by decide, by decide⟩,
    ((C8_scan_commands_gated.2.2.2 "users"
        (fun _ => ⟨["sql"], [[Value.str "CREATE TABLE users (id)"]], 0⟩)
        ⟨.default, true, false⟩ "n" (by decide) (by decide) (by decide)).1 (by decide)).1⟩

end BunnyShell
